import Mathlib

/-!
Shallow embedding of the `CacheManager` multi-layer caching subsystem
(`src/modules/CacheManager.js`) together with proofs about its cache
operations: the fallback string codec, the two-tier `set`/`get`/`delete`
facade, TTL expiry, pressure eviction, tag invalidation and statistics.

JavaScript numbers are embedded as exact integers/rationals (`Int`, `ℚ`);
platform primitives (JSON serialization, gzip streams, the durable
IndexedDB backend) are modelled as explicit oracle parameters, and the
per-call failure of a durable transaction is modelled by per-key failure
sets, mirroring the promise-rejection paths of the source.
-/

deriving instance DecidableEq for Except

set_option maxRecDepth 10000

namespace CacheModel

/-- Line terminators, which the JavaScript regex `.` never matches. -/
def isLineTerminator (c : Char) : Bool :=
  c = '\n' || c = '\r' || c.val = 0x2028 || c.val = 0x2029

/-- Decimal rendering of a natural number, as produced by JavaScript
number-to-string coercion of a nonnegative integer. -/
def natDigits (n : Nat) : List Char :=
  (Nat.repr n).toList

/-- Value of a list of decimal digits, as computed by `parseInt` on a
digit string. -/
def digitsToNat (ds : List Char) : Nat :=
  ds.foldl (fun n c => n * 10 + (c.toNat - '0'.toNat)) 0

/-- Replacement text for one maximal run in `simpleCompress`: a run of
length 1 is left alone, a longer run is replaced by the character
followed by the decimal run length (`char + match.length`). -/
def emitRun (c : Char) (count : Nat) : List Char :=
  if count = 1 then [c] else c :: natDigits count

/-- Left-to-right scan implementing the global replacement
`str.replace(/(.)\1+/g, (match, char) => char + match.length)`:
`c` is the character whose run is being scanned and `count` its length
so far.  A run never starts at a line terminator (the regex `.` does not
match one), so such characters are never merged. -/
def rleScan (c : Char) (count : Nat) : List Char → List Char
  | [] => emitRun c count
  | d :: rest =>
    if d = c && !isLineTerminator c then
      rleScan c (count + 1) rest
    else
      emitRun c count ++ rleScan d 1 rest

/-- `simpleCompress` from `CacheManager.js`:
`str.replace(/(.)\1+/g, (match, char) => char + match.length)`. -/
def simpleCompress : List Char → List Char
  | [] => []
  | c :: rest => rleScan c 1 rest

/-- Replacement step in `simpleDecompress`: a pending character followed
by no digits is copied unchanged; followed by the digit run `ds` it is
replaced by `char.repeat(parseInt(ds))`. -/
def emitRepeat (c : Char) (ds : List Char) : List Char :=
  if ds.isEmpty then [c] else List.replicate (digitsToNat ds) c

/-- Left-to-right scan implementing the global replacement
`str.replace(/(.)\d+/g, (match, char) => char.repeat(parseInt(match.slice(1))))`:
`c` is the pending character and `ds` the digit run collected after it
(greedy `\d+`).  A match never starts at a line terminator. -/
def repScan (c : Char) (ds : List Char) : List Char → List Char
  | [] => emitRepeat c ds
  | d :: rest =>
    if !isLineTerminator c && d.isDigit then
      repScan c (ds ++ [d]) rest
    else
      emitRepeat c ds ++ repScan d [] rest

/-- `simpleDecompress` from `CacheManager.js`:
`str.replace(/(.)\d+/g, (match, char) => char.repeat(parseInt(match.slice(1))))`. -/
def simpleDecompress : List Char → List Char
  | [] => []
  | c :: rest => repScan c [] rest

/-- String-level wrapper for `simpleCompress`. -/
def simpleCompressStr (s : String) : String :=
  (simpleCompress s.toList).asString

/-- String-level wrapper for `simpleDecompress`. -/
def simpleDecompressStr (s : String) : String :=
  (simpleDecompress s.toList).asString

/-! ## Values, payloads and the platform environment -/

/-- Serializable JavaScript values handled by the cache facade.  The
cache treats the payload opaquely; its JSON form is produced by the
`stringify` oracle of the environment, so scalar representatives
suffice.  `null` is distinguished because `get` uses `null` both as the
miss sentinel and as a legitimate value. -/
inductive JsValue where
  | null
  | boolean (b : Bool)
  | number (n : Int)
  | str (s : String)
deriving DecidableEq, Repr

/-- What may actually sit in a cache entry's `value` field: an ordinary
JavaScript value (raw, or a fallback-compressed string — the two are
indistinguishable to `decompress`, which dispatches on `typeof`), or a
`Uint8Array` produced by the gzip stream. -/
inductive StoredValue where
  | js (v : JsValue)
  | bytes (b : List Nat)
deriving DecidableEq, Repr

/-- Platform capabilities and primitives, modelled as oracles:
`CompressionStream`/`DecompressionStream` availability, JSON
serialization, and the gzip codec.  `gzip`/`gunzip`/`parse` returning
`none` models the primitive throwing. -/
structure Env where
  hasCompressionStream : Bool
  hasDecompressionStream : Bool
  stringify : JsValue → String
  parse : String → Option JsValue
  gzip : String → Option (List Nat)
  gunzip : List Nat → Option String

/-- One cache entry, as built by `set` in `CacheManager.js`. -/
structure CacheItem where
  key : String
  value : StoredValue
  timestamp : Int
  ttl : Int
  priority : Int
  tags : List String
  size : Nat
  accessCount : Nat
  lastAccessed : Option Int
  compressed : Bool
deriving DecidableEq, Repr

/-- Running statistics (`this.stats`).  The source field name for
`compressionRate` is `compressionRatio`. -/
structure Stats where
  hits : Nat
  misses : Nat
  evictions : Nat
  compressionRate : ℚ
deriving DecidableEq, Repr

/-- The durable IndexedDB `dataCache` object store, together with
per-key failure sets modelling transaction errors: a key listed in
`putFail`/`getFail`/`delFail` makes the corresponding request fire
`onerror`, rejecting the wrapping promise. -/
structure Idb where
  store : List (String × CacheItem)
  putFail : List String
  getFail : List String
  delFail : List String
deriving DecidableEq, Repr

/-- Whole cache state: the in-memory `Map`, the optional durable tier
(`this.indexedDB` is `null` when unavailable), and the statistics. -/
structure CacheState where
  memoryCache : List (String × CacheItem)
  idb : Option Idb
  stats : Stats
deriving DecidableEq, Repr

/-! ## JavaScript `Map` semantics on association lists

`Map.set` on an existing key overwrites in place (keeping the original
insertion position); on a new key it appends.  `Map.delete` removes the
unique binding of the key. -/

def mapHas (m : List (String × CacheItem)) (k : String) : Bool :=
  m.any (fun p => p.1 = k)

def mapGet (m : List (String × CacheItem)) (k : String) : Option CacheItem :=
  (m.find? (fun p => p.1 = k)).map Prod.snd

def mapSet (m : List (String × CacheItem)) (k : String) (v : CacheItem) :
    List (String × CacheItem) :=
  if mapHas m k then m.map (fun p => if p.1 = k then (k, v) else p)
  else m ++ [(k, v)]

def mapDelete (m : List (String × CacheItem)) (k : String) :
    List (String × CacheItem) :=
  m.filter (fun p => p.1 ≠ k)

/-! ## Configuration constants (`this.cacheConfig`) -/

def maxMemoryItems : Nat := 100

def maxMemorySize : Nat := 50 * 1024 * 1024

def defaultTTL : Int := 24 * 60 * 60 * 1000

def compressionEnabled : Bool := true

/-- Options accepted by `set`, with the defaults destructured in the
source. -/
structure SetOptions where
  ttl : Int := defaultTTL
  compress : Bool := compressionEnabled
  priority : Int := 1
  tags : List String := []
deriving DecidableEq, Repr

/-! ## Compression codec (`compress` / `decompress`) -/

/-- JavaScript string `.length` (UTF-16 code units). -/
def jsLength (s : String) : Nat :=
  s.toList.foldl (fun n c => n + if c.val ≥ 0x10000 then 2 else 1) 0

/-- `updateCompressionRatio`: running average
`(oldAvg + (original - compressed) / original) / 2`.  The source field
is named `compressionRatio`. -/
def updateCompressionRate (s : Stats) (originalSize compressedSize : Nat) : Stats :=
  let rate : ℚ := ((originalSize : ℚ) - (compressedSize : ℚ)) / (originalSize : ℚ)
  { s with compressionRate := (s.compressionRate + rate) / 2 }

/-- `compress(data)`:  without `CompressionStream` the fallback encodes
`JSON.stringify(data)` with `simpleCompress`; with it, the gzip stream
either yields bytes or throws, in which case the `catch` returns the
original data unchanged.  On both success paths the ratio statistic is
updated with the pre/post sizes. -/
def compressImpl (env : Env) (data : JsValue) (s : Stats) : StoredValue × Stats :=
  if !env.hasCompressionStream then
    let jsonString := env.stringify data
    let compressed := simpleCompressStr jsonString
    (StoredValue.js (JsValue.str compressed),
      updateCompressionRate s (jsLength jsonString) (jsLength compressed))
  else
    let jsonString := env.stringify data
    match env.gzip jsonString with
    | some bytes =>
      (StoredValue.bytes bytes,
        updateCompressionRate s (jsLength jsonString) bytes.length)
    | none => (StoredValue.js data, s)

/-- `decompress(compressedData)`.  A string payload takes the fallback
path `JSON.parse(simpleDecompress(str))`, which is outside any
`try`/`catch`: a parse failure propagates (`Except.error`).  A byte
payload is gunzipped inside `try`/`catch`: any failure returns the
payload unchanged.  Any other value with `DecompressionStream` present
makes the stream reject inside the `try`, so the `catch` returns it
unchanged; without `DecompressionStream` it is returned unchanged
directly. -/
def decompressImpl (env : Env) : StoredValue → Except Unit StoredValue
  | StoredValue.js (JsValue.str s) =>
    match env.parse (simpleDecompressStr s) with
    | some v => Except.ok (StoredValue.js v)
    | none => Except.error ()
  | StoredValue.js v => Except.ok (StoredValue.js v)
  | StoredValue.bytes b =>
    if env.hasDecompressionStream then
      match env.gunzip b with
      | some s =>
        match env.parse s with
        | some v => Except.ok (StoredValue.js v)
        | none => Except.ok (StoredValue.bytes b)
      | none => Except.ok (StoredValue.bytes b)
    else Except.ok (StoredValue.bytes b)

/-- `calculateSize`: `new Blob([JSON.stringify(data)]).size`, the UTF-8
byte length of the serialized value. -/
def calculateSize (env : Env) (data : JsValue) : Nat :=
  (env.stringify data).utf8ByteSize

/-! ## Durable-store helpers (`setInIndexedDB` etc. on `dataCache`) -/

def idbPut (idb : Idb) (item : CacheItem) : Except Unit Idb :=
  if idb.putFail.contains item.key then Except.error ()
  else Except.ok { idb with store := mapSet idb.store item.key item }

def idbGet (idb : Idb) (k : String) : Except Unit (Option CacheItem) :=
  if idb.getFail.contains k then Except.error ()
  else Except.ok (mapGet idb.store k)

def idbDelete (idb : Idb) (k : String) : Except Unit Idb :=
  if idb.delFail.contains k then Except.error ()
  else Except.ok { idb with store := mapDelete idb.store k }

/-- Whether a `set` on `key` would hit a failing durable put. -/
def durablePutFails (st : CacheState) (k : String) : Bool :=
  match st.idb with
  | some idb => idb.putFail.contains k
  | none => false

/-- Whether a `delete` on `key` would hit a failing durable delete. -/
def durableDeleteFails (st : CacheState) (k : String) : Bool :=
  match st.idb with
  | some idb => idb.delFail.contains k
  | none => false

/-! ## Statistics -/

def recordHit (st : CacheState) : CacheState :=
  { st with stats := { st.stats with hits := st.stats.hits + 1 } }

def recordMiss (st : CacheState) : CacheState :=
  { st with stats := { st.stats with misses := st.stats.misses + 1 } }

/-! ## Expiry and eviction -/

/-- `isExpired(item, now)`: `item.ttl > 0 && (now - item.timestamp) > item.ttl`. -/
def isExpired (item : CacheItem) (now : Int) : Bool :=
  item.ttl > 0 && (now - item.timestamp) > item.ttl

/-- `a.lastAccessed || a.timestamp`: JavaScript `||` falls back both on
a missing field and on the falsy value `0`. -/
def effectiveAccess (item : CacheItem) : Int :=
  match item.lastAccessed with
  | some t => if t = 0 then item.timestamp else t
  | none => item.timestamp

/-- The total preorder realized by the eviction comparator
`(a, b) => a.priority - b.priority`, falling back to
`(a.lastAccessed || a.timestamp) - (b.lastAccessed || b.timestamp)`:
`EvictOrder a b` holds exactly when the comparator is ≤ 0 on `(a, b)`. -/
def EvictOrder (a b : String × CacheItem) : Prop :=
  a.2.priority < b.2.priority ∨
    (a.2.priority = b.2.priority ∧ effectiveAccess a.2 ≤ effectiveAccess b.2)

instance : DecidableRel EvictOrder := fun a b => by
  unfold EvictOrder; infer_instance

instance : IsTotal (String × CacheItem) EvictOrder :=
  ⟨by intro a b; unfold EvictOrder; omega⟩

instance : IsTrans (String × CacheItem) EvictOrder :=
  ⟨by intro a b c; unfold EvictOrder; omega⟩

/-- Stable sort of the in-memory entries by
`(priority, lastAccessed || timestamp)`, ascending — the
`Array.prototype.sort` call in `evictItems` (a stable sort under the
comparator above; insertion sort under the same total preorder produces
the identical list). -/
def sortEntries (m : List (String × CacheItem)) : List (String × CacheItem) :=
  m.insertionSort EvictOrder

/-- The body of the eviction loop for a given eviction count: delete the
first `count` sorted entries from the memory map, bumping `evictions`
once per removed entry. -/
def evictTake (count : Nat) (st : CacheState) : CacheState :=
  let victims := (sortEntries st.memoryCache).take count
  { st with
    memoryCache := victims.foldl (fun m v => mapDelete m v.2.key) st.memoryCache
    stats := { st.stats with evictions := st.stats.evictions + victims.length } }

/-- `evictItems`: evict `Math.max(1, Math.floor(items.length * 0.25))`
entries (`n * 0.25` is exact in floating point, so the count is
`max 1 (n / 4)` with natural division). -/
def evictItems (st : CacheState) : CacheState :=
  evictTake (max 1 (st.memoryCache.length / 4)) st

/-- `checkEviction`: run after every `set`. -/
def checkEviction (st : CacheState) : CacheState :=
  if st.memoryCache.length > maxMemoryItems then evictItems st else st

/-! ## The cache facade: `set`, `get`, `delete` -/

/-- `set(key, value, options)`.  Builds the entry (compressing during
construction when requested), writes the memory tier, then awaits the
durable put — whose rejection propagates out of `set`, after the memory
write — and finally runs `checkEviction`, returning `true`. -/
def setImpl (env : Env) (now : Int) (key : String) (value : JsValue)
    (opts : SetOptions) (st : CacheState) : Except Unit Bool × CacheState :=
  let stored :=
    if opts.compress then compressImpl env value st.stats
    else (StoredValue.js value, st.stats)
  let item : CacheItem :=
    { key := key
      value := stored.1
      timestamp := now
      ttl := opts.ttl
      priority := opts.priority
      tags := opts.tags
      size := calculateSize env value
      accessCount := 0
      lastAccessed := none
      compressed := opts.compress }
  let st1 : CacheState :=
    { st with memoryCache := mapSet st.memoryCache key item, stats := stored.2 }
  match st1.idb with
  | some idb =>
    match idbPut idb item with
    | Except.error _ => (Except.error (), st1)
    | Except.ok idb2 =>
      (Except.ok true, checkEviction { st1 with idb := some idb2 })
  | none => (Except.ok true, checkEviction st1)

/-- `delete(key)`: remove from the memory map, then await the durable
delete (whose rejection propagates after the memory removal), returning
`true`. -/
def deleteImpl (key : String) (st : CacheState) : Except Unit Bool × CacheState :=
  let st1 : CacheState := { st with memoryCache := mapDelete st.memoryCache key }
  match st1.idb with
  | some idb =>
    match idbDelete idb key with
    | Except.error _ => (Except.error (), st1)
    | Except.ok idb2 => (Except.ok true, { st1 with idb := some idb2 })
  | none => (Except.ok true, st1)

/-- Tail of `get` once a non-null `cacheItem` has been found (and the
hit already recorded): lazy expiry (delete from both tiers, record a
miss, return `null`), else mutate the access statistics in place and
decompress if flagged.  A decompression failure on the string fallback
path propagates out of `get`. -/
def getFound (env : Env) (now : Int) (key : String) (item : CacheItem)
    (st : CacheState) : Except Unit StoredValue × CacheState :=
  if isExpired item now then
    match deleteImpl key st with
    | (Except.error _, st1) => (Except.error (), st1)
    | (Except.ok _, st1) => (Except.ok (StoredValue.js JsValue.null), recordMiss st1)
  else
    let item1 := { item with accessCount := item.accessCount + 1, lastAccessed := some now }
    let st1 : CacheState := { st with memoryCache := mapSet st.memoryCache key item1 }
    if item1.compressed then
      match decompressImpl env item1.value with
      | Except.ok v => (Except.ok v, st1)
      | Except.error _ => (Except.error (), st1)
    else (Except.ok item1.value, st1)

/-- `get(key)`.  Checks the memory tier (recording a hit), else the
durable tier (rejection propagates; a durable hit is promoted into
memory and recorded as a hit); a `null` item records a miss and returns
`null`.  The return value `null` doubles as the miss sentinel. -/
def getImpl (env : Env) (now : Int) (key : String) (st : CacheState) :
    Except Unit StoredValue × CacheState :=
  match mapGet st.memoryCache key with
  | some item => getFound env now key item (recordHit st)
  | none =>
    match st.idb with
    | some idb =>
      match idbGet idb key with
      | Except.error _ => (Except.error (), st)
      | Except.ok none => (Except.ok (StoredValue.js JsValue.null), recordMiss st)
      | Except.ok (some item) =>
        getFound env now key item
          (recordHit { st with memoryCache := mapSet st.memoryCache key item })
    | none => (Except.ok (StoredValue.js JsValue.null), recordMiss st)

/-! ## `getOrCompute`, tag invalidation, statistics view -/

/-- The miss branch of `getOrCompute`: run the producer (an error
propagates, uncaught), `set` the result (a `set` rejection also
propagates), and return the computed value. -/
def computeAndSet (env : Env) (now : Int) (key : String)
    (computeFn : Except Unit JsValue) (opts : SetOptions) (st1 : CacheState) :
    Except Unit StoredValue × CacheState :=
  match computeFn with
  | Except.error _ => (Except.error (), st1)
  | Except.ok v =>
    match setImpl env now key v opts st1 with
    | (Except.error _, st2) => (Except.error (), st2)
    | (Except.ok _, st2) => (Except.ok (StoredValue.js v), st2)

/-- `getOrCompute(key, computeFn, options)`: return the `get` result
unless it is `null` (`result === null` — both the miss sentinel and a
legitimately cached `null` satisfy this), in which case compute, store
and return. -/
def getOrComputeImpl (env : Env) (now : Int) (key : String)
    (computeFn : Except Unit JsValue) (opts : SetOptions) (st : CacheState) :
    Except Unit StoredValue × CacheState :=
  match getImpl env now key st with
  | (Except.error _, st1) => (Except.error (), st1)
  | (Except.ok r, st1) =>
    if r = StoredValue.js JsValue.null then
      computeAndSet env now key computeFn opts st1
    else (Except.ok r, st1)

/-- Sequential `await this.delete(key)` over a list of keys, stopping at
the first rejection. -/
def deleteAll : List String → CacheState → Except Unit Unit × CacheState
  | [], st => (Except.ok (), st)
  | k :: ks, st =>
    match deleteImpl k st with
    | (Except.error _, st1) => (Except.error (), st1)
    | (Except.ok _, st1) => deleteAll ks st1

/-- `invalidateByTag(tag)`: collect the keys of in-memory entries whose
`tags` include the tag, delete each from both tiers, and return —
without a return statement, i.e. `undefined` (modelled as `none` in the
JavaScript result domain `undefined | number`). -/
def invalidateByTagImpl (tag : String) (st : CacheState) :
    Except Unit (Option Nat) × CacheState :=
  let toDelete :=
    (st.memoryCache.filter (fun p => p.2.tags.contains tag)).map Prod.fst
  match deleteAll toDelete st with
  | (Except.error _, st1) => (Except.error (), st1)
  | (Except.ok _, st1) => (Except.ok none, st1)

/-- `getMemoryCacheSize`: sum of the `size` fields of the in-memory
entries. -/
def getMemoryCacheSize (st : CacheState) : Nat :=
  st.memoryCache.foldl (fun sum p => sum + p.2.size) 0

/-! ## IEEE-754 binary64 arithmetic

`getStats` computes its hit rate with JavaScript number arithmetic, and
the division/multiplication chain rounds at every step; the rounding is
observable (e.g. at 23 hits and 137 misses), so the embedding models
binary64 values exactly: a value is an integer mantissa scaled by a
power of two, and every arithmetic step is correctly rounded to 53
significant bits, round-to-nearest, ties-to-even.  The exponent is not
range-limited: overflow, subnormals, infinities and NaN are unreachable
for the values flowing through `getStats` (all lie between 0 and
10000, with denominators bounded by the counters). -/

/-- Floor of the base-2 logarithm (by fuel; `natLog2 0 = 0`). -/
def natLog2Aux : Nat → Nat → Nat
  | 0, _ => 0
  | fuel + 1, n => if n ≥ 2 then natLog2Aux fuel (n / 2) + 1 else 0

def natLog2 (n : Nat) : Nat := natLog2Aux n n

/-- A binary64 value `mant · 2 ^ exp` (canonically `|mant| ∈ [2^52, 2^53)`
after rounding, or `0`). -/
structure Fp64 where
  mant : Int
  exp : Int
deriving DecidableEq, Repr

/-- `⌊n · 2 ^ s / d⌋` together with the remainder and the divisor used,
for an arbitrary integer shift `s`. -/
def scaledDivRem (n d : Nat) (s : Int) : Nat × Nat × Nat :=
  if 0 ≤ s then
    let N := n * 2 ^ s.toNat
    (N / d, N % d, d)
  else
    let D := d * 2 ^ (-s).toNat
    (n / D, n % D, D)

/-- Rounded 53-bit mantissa and exponent of the positive rational
`n / d`: scale into `[2^52, 2^53)` and round to nearest, ties to
even. -/
def flPosParts (n d : Nat) : Nat × Int :=
  let L : Int := (natLog2 n : Int) - (natLog2 d : Int)
  let s0 : Int := 52 - L
  let q0 := (scaledDivRem n d s0).1
  let s : Int :=
    if q0 < 2 ^ 52 then s0 + 1 else if q0 ≥ 2 ^ 53 then s0 - 1 else s0
  let qrd := scaledDivRem n d s
  let q := qrd.1
  let r := qrd.2.1
  let D := qrd.2.2
  let q2 : Nat :=
    if 2 * r > D then q + 1
    else if 2 * r < D then q
    else if q % 2 = 0 then q else q + 1
  (q2, -s)

/-- The binary64 value nearest to `num / den` (`den ≥ 1`), rounding to
nearest with ties to even — the result of an IEEE division of two
exactly-represented operands. -/
def flRat (num : Int) (den : Nat) : Fp64 :=
  if num = 0 then ⟨0, 0⟩
  else if 0 < num then
    let p := flPosParts num.toNat den
    ⟨(p.1 : Int), p.2⟩
  else
    let p := flPosParts (-num).toNat den
    ⟨-(p.1 : Int), p.2⟩

/-- A binary64 value as an exact integer fraction with a power-of-two
denominator. -/
def Fp64.toNumDen (f : Fp64) : Int × Nat :=
  if 0 ≤ f.exp then (f.mant * 2 ^ f.exp.toNat, 1)
  else (f.mant, 2 ^ (-f.exp).toNat)

/-- Binary64 multiplication by the exactly-represented constant 100:
the exact product re-rounded to 53 bits. -/
def fpMul100 (f : Fp64) : Fp64 :=
  flRat (100 * f.toNumDen.1) f.toNumDen.2

/-- `Math.round` of a binary64 value: the closest integer to the exact
value, ties toward positive infinity (`⌊x + 1/2⌋` on the exact
rational, per the ECMAScript definition). -/
def fpRound (f : Fp64) : Int :=
  Int.fdiv (2 * f.toNumDen.1 + (f.toNumDen.2 : Int)) (2 * (f.toNumDen.2 : Int))

/-- The exact rational value of a binary64 number. -/
def Fp64.toRat (f : Fp64) : ℚ :=
  (f.mant : ℚ) * (2 : ℚ) ^ f.exp

/-- `Math.round` on an exact rational value: round half toward positive
infinity.  (Spec-side; `fpRound` is the same operation on a binary64
value.) -/
def jsRound (q : ℚ) : Int :=
  ⌊q + 1 / 2⌋

/-- The record returned by `getStats()`.  The source field name for
`compressionRate` is `compressionRatio`. -/
structure StatsView where
  hits : Nat
  misses : Nat
  evictions : Nat
  compressionRate : ℚ
  hitRate : ℚ
  memoryItems : Nat
  memorySize : Nat
deriving DecidableEq, Repr

/-- `getStats()`: the raw counters, a hit rate in percent computed in
binary64 arithmetic — `(hits / total) * 100` (zero when there were no
requests), then `Math.round(hitRate * 100) / 100` — plus the item count
and the aggregate size of the memory tier.  Each division and
multiplication rounds to 53 bits, exactly as the JavaScript engine
does; the counters themselves are exactly representable. -/
def getStats (st : CacheState) : StatsView :=
  let total := st.stats.hits + st.stats.misses
  let hitRate : Fp64 :=
    if total > 0 then fpMul100 (flRat (st.stats.hits : Int) total)
    else ⟨0, 0⟩
  { hits := st.stats.hits
    misses := st.stats.misses
    evictions := st.stats.evictions
    compressionRate := st.stats.compressionRate
    hitRate := Fp64.toRat (flRat (fpRound (fpMul100 hitRate)) 100)
    memoryItems := st.memoryCache.length
    memorySize := getMemoryCacheSize st }

/-- The binary64 evaluation of
`Math.round(((hits / (hits + misses)) * 100) * 100) / 100`, the value
`getStats` reports as `hitRate` when at least one request was made. -/
def hitRateNumber (h m : Nat) : ℚ :=
  Fp64.toRat
    (flRat (fpRound (fpMul100 (fpMul100 (flRat (h : Int) (h + m))))) 100)

/-! ## Well-formedness

States reachable through the facade keep the `Map` keys distinct and
equal to each entry's `key` field; several theorems assume this. -/

def WellFormed (st : CacheState) : Prop :=
  (st.memoryCache.map Prod.fst).Nodup ∧ ∀ p ∈ st.memoryCache, p.2.key = p.1

instance (st : CacheState) : Decidable (WellFormed st) := by
  unfold WellFormed; infer_instance

/-! ## Concrete fixtures used by the sanity checks and the witnesses -/

def zeroStats : Stats :=
  { hits := 0, misses := 0, evictions := 0, compressionRate := 0 }

/-- An environment without compression streams and with trivial
serialization; used in runs that store with `compress: false`. -/
def envPlain : Env :=
  { hasCompressionStream := false
    hasDecompressionStream := false
    stringify := fun _ => ""
    parse := fun _ => none
    gzip := fun _ => none
    gunzip := fun _ => none }

/-- Environment whose `CompressionStream` is present but always throws,
exercising the `catch` branch of `compress`. -/
def envGzipFail : Env :=
  { hasCompressionStream := true
    hasDecompressionStream := true
    stringify := fun _ => "x"
    parse := fun _ => none
    gzip := fun _ => none
    gunzip := fun _ => none }

/-- Memory-only state (the IndexedDB feature probe failed). -/
def noIdbState : CacheState :=
  { memoryCache := [], idb := none, stats := zeroStats }

/-- `set` options storing raw at priority 1. -/
def plainOpts : SetOptions :=
  { compress := false, priority := 1 }

/-- A fresh entry as `set` builds it with `plainOpts` under `envPlain`. -/
def mkItem (k : String) (v : JsValue) (ts : Int) (pr : Int) (tg : List String) :
    CacheItem :=
  { key := k, value := StoredValue.js v, timestamp := ts, ttl := defaultTTL
    priority := pr, tags := tg, size := 0, accessCount := 0
    lastAccessed := none, compressed := false }

def keyN (i : Nat) : String := "k" ++ Nat.repr i

/-- Insert `n` distinct priority-1 entries through the facade into a
memory-only cache. -/
def fillState (n : Nat) : CacheState :=
  (List.range n).foldl
    (fun st i => (setImpl envPlain 0 (keyN i) (JsValue.number (i : Int)) plainOpts st).2)
    noIdbState

/-- Five distinct priority-1 entries, all with the same timestamp. -/
def fiveState : CacheState :=
  { memoryCache :=
      [("a", mkItem "a" (JsValue.number 1) 0 1 [])
      , ("b", mkItem "b" (JsValue.number 2) 0 1 [])
      , ("c", mkItem "c" (JsValue.number 3) 0 1 [])
      , ("d", mkItem "d" (JsValue.number 4) 0 1 [])
      , ("e", mkItem "e" (JsValue.number 5) 0 1 [])]
    idb := none
    stats := zeroStats }

/-- Entry with an explicit priority and `lastAccessed` time. -/
def itemPL (k : String) (pr : Int) (la : Int) : CacheItem :=
  { key := k, value := StoredValue.js JsValue.null, timestamp := 5, ttl := 0
    priority := pr, tags := [], size := 0, accessCount := 0
    lastAccessed := some la, compressed := false }

/-- The eviction-ordering example of the specification: `A` at priority
0 accessed at `t1 = 20`, `B` and `C` at priority 1 accessed at `t0 = 10`
and `t2 = 30` respectively. -/
def abcState : CacheState :=
  { memoryCache :=
      [("A", itemPL "A" 0 20), ("B", itemPL "B" 1 10), ("C", itemPL "C" 1 30)]
    idb := none
    stats := zeroStats }

/-- Empty cache whose durable tier rejects the put on `"k"`. -/
def putFailState : CacheState :=
  { memoryCache := []
    idb := some { store := [], putFail := ["k"], getFail := [], delFail := [] }
    stats := zeroStats }

/-- Empty cache whose durable tier rejects the get on `"k"`. -/
def getFailState : CacheState :=
  { memoryCache := []
    idb := some { store := [], putFail := [], getFail := ["k"], delFail := [] }
    stats := zeroStats }

/-- An entry that is already expired at time 10 (`ttl = 5`,
`timestamp = 0`). -/
def expiredItem : CacheItem :=
  { key := "k", value := StoredValue.js (JsValue.number 9), timestamp := 0
    ttl := 5, priority := 1, tags := [], size := 0, accessCount := 0
    lastAccessed := none, compressed := false }

/-- Memory-only cache holding `expiredItem` under `"k"`. -/
def expiredState : CacheState :=
  { memoryCache := [("k", expiredItem)]
    idb := none
    stats := zeroStats }

/-- Memory-only cache holding a legitimate `null` value under `"k"`. -/
def nullValueState : CacheState :=
  { memoryCache := [("k", mkItem "k" JsValue.null 0 1 [])]
    idb := none
    stats := zeroStats }

/-- Memory-only cache holding the number 3 under `"k"`. -/
def presentState : CacheState :=
  { memoryCache := [("k", mkItem "k" (JsValue.number 3) 0 1 [])]
    idb := none
    stats := zeroStats }

/-- Two entries, one tagged `"file"`, one tagged `"other"`. -/
def taggedState : CacheState :=
  { memoryCache :=
      [("f", mkItem "f" (JsValue.number 1) 0 1 ["file"])
      , ("g", mkItem "g" (JsValue.number 2) 0 1 ["other"])]
    idb := none
    stats := zeroStats }

/-- Rounding to two decimal places, half up — the specification's
reading of the hit-rate rounding. -/
def roundTo2 (q : ℚ) : ℚ :=
  ((jsRound (q * 100) : ℚ)) / 100

/-- Cache whose statistics record 23 hits and 137 misses. -/
def stat23137 : CacheState :=
  { memoryCache := []
    idb := none
    stats := { hits := 23, misses := 137, evictions := 0, compressionRate := 0 } }

/-! ## Helper lemmas about the `Map` model -/

theorem mapGet_eq_none_of_not_has (m : List (String × CacheItem)) (k : String)
    (h : mapHas m k = false) : mapGet m k = none := by
  unfold mapGet
  rw [List.find?_eq_none.mpr]
  · rfl
  · intro p hp
    simp only [mapHas, List.any_eq_false] at h
    simpa using h p hp

theorem mapGet_mapSet_self (m : List (String × CacheItem)) (k : String)
    (v : CacheItem) : mapGet (mapSet m k v) k = some v := by
  unfold mapSet
  by_cases h : mapHas m k = true
  · rw [if_pos h]
    simp only [mapHas, List.any_eq_true] at h
    induction m with
    | nil => simp at h
    | cons p rest ih =>
      by_cases hp : p.1 = k
      · simp [mapGet, List.find?, hp]
      · simp only [List.map_cons, if_neg hp]
        have hr : ∃ q ∈ rest, (decide (q.1 = k)) = true := by
          rcases h with ⟨q, hq, hqk⟩
          rcases List.mem_cons.mp hq with hq1 | hq1
          · subst hq1; simp at hqk; exact absurd hqk hp
          · exact ⟨q, hq1, hqk⟩
        have := ih (by simpa using hr)
        simpa [mapGet, List.find?, hp] using this
  · rw [if_neg h]
    have h' : mapHas m k = false := by simpa using h
    unfold mapGet
    rw [List.find?_append]
    rw [List.find?_eq_none.mpr]
    · simp [List.find?]
    · intro p hp
      simp only [mapHas, List.any_eq_false] at h'
      simpa using h' p hp

theorem mapGet_mapDelete_self (m : List (String × CacheItem)) (k : String) :
    mapGet (mapDelete m k) k = none := by
  unfold mapGet mapDelete
  rw [List.find?_eq_none.mpr]
  · rfl
  · intro p hp
    have := List.of_mem_filter hp
    simpa using this

theorem length_mapSet_le (m : List (String × CacheItem)) (k : String)
    (v : CacheItem) : (mapSet m k v).length ≤ m.length + 1 := by
  unfold mapSet
  by_cases h : mapHas m k = true
  · rw [if_pos h, List.length_map]; omega
  · rw [if_neg h, List.length_append]; simp

theorem mapDelete_map_fst (m : List (String × CacheItem)) (k : String) :
    (mapDelete m k).map Prod.fst
      = (m.map Prod.fst).filter (fun x => decide ¬(x = k)) := by
  unfold mapDelete
  induction m with
  | nil => rfl
  | cons p rest ih =>
    simp only [ne_eq, decide_not] at ih ⊢
    by_cases hp : p.1 = k
    · simp [List.filter_cons, hp, ih]
    · simp [List.filter_cons, hp, ih]

theorem length_mapDelete_of_mem (m : List (String × CacheItem)) (k : String)
    (hnd : (m.map Prod.fst).Nodup) (hk : k ∈ m.map Prod.fst) :
    (mapDelete m k).length + 1 = m.length := by
  induction m with
  | nil => simp at hk
  | cons p rest ih =>
    simp only [List.map_cons, List.nodup_cons] at hnd
    unfold mapDelete
    by_cases hp : p.1 = k
    · rw [List.filter_cons_of_neg (by simp [hp])]
      rw [List.filter_eq_self.mpr]
      · simp
      · intro q hq
        have : q.1 ≠ k := by
          intro hqk
          apply hnd.1
          rw [hp, ← hqk]
          exact List.mem_map_of_mem Prod.fst hq
        simpa using this
    · rw [List.filter_cons_of_pos (by simpa using hp)]
      have hk' : k ∈ rest.map Prod.fst := by
        rcases List.mem_cons.mp hk with h | h
        · exact absurd h.symm hp
        · exact h
      have := ih hnd.2 hk'
      unfold mapDelete at this
      simp only [List.length_cons]
      omega

theorem nodup_mapDelete_fst (m : List (String × CacheItem)) (k : String)
    (hnd : (m.map Prod.fst).Nodup) : ((mapDelete m k).map Prod.fst).Nodup := by
  rw [mapDelete_map_fst]
  exact hnd.filter _

theorem mem_mapDelete_fst (m : List (String × CacheItem)) (k x : String)
    (hx : x ∈ m.map Prod.fst) (hxk : x ≠ k) :
    x ∈ (mapDelete m k).map Prod.fst := by
  rw [mapDelete_map_fst]
  exact List.mem_filter.mpr ⟨hx, by simpa using hxk⟩

/-- Deleting a list of pairwise-distinct present keys removes exactly
one entry per key. -/
theorem length_foldl_mapDelete (vs : List (String × CacheItem)) :
    ∀ m : List (String × CacheItem),
      (m.map Prod.fst).Nodup →
      (vs.map (fun v => v.2.key)).Nodup →
      (∀ v ∈ vs, v.2.key ∈ m.map Prod.fst) →
      (vs.foldl (fun acc v => mapDelete acc v.2.key) m).length + vs.length
        = m.length := by
  induction vs with
  | nil => intro m _ _ _; simp
  | cons v vs ih =>
    intro m hnd hvnd hmem
    simp only [List.map_cons, List.nodup_cons] at hvnd
    have hstep := length_mapDelete_of_mem m v.2.key hnd (hmem v (by simp))
    have hrec := ih (mapDelete m v.2.key)
      (nodup_mapDelete_fst m v.2.key hnd) hvnd.2
      (fun w hw => by
        apply mem_mapDelete_fst
        · exact hmem w (List.mem_cons_of_mem v hw)
        · intro hwk
          exact hvnd.1 (hwk ▸ List.mem_map_of_mem (fun v => v.2.key) hw))
    simp only [List.foldl_cons, List.length_cons]
    omega

/-- Folding `mapDelete` over a victim list filters out exactly the
entries whose map key is among the victims' `key` fields. -/
theorem foldl_mapDelete_eq_filter (vs : List (String × CacheItem)) :
    ∀ m : List (String × CacheItem),
      vs.foldl (fun acc v => mapDelete acc v.2.key) m
        = m.filter (fun p => vs.all (fun v => decide ¬(p.1 = v.2.key))) := by
  induction vs with
  | nil => intro m; simp
  | cons v vs ih =>
    intro m
    simp only [List.foldl_cons]
    rw [ih (mapDelete m v.2.key)]
    unfold mapDelete
    rw [List.filter_filter]
    apply List.filter_congr
    intro p _
    simp only [List.all_cons, ne_eq, decide_not]
    rw [Bool.and_comm]

/-- One `mapDelete` followed by filtering a key list equals filtering
the extended key list. -/
theorem mapDelete_filter_contains (m : List (String × CacheItem)) (k : String)
    (ks : List String) :
    (mapDelete m k).filter (fun p => !(ks.contains p.1))
      = m.filter (fun p => !((k :: ks).contains p.1)) := by
  unfold mapDelete
  rw [List.filter_filter]
  apply List.filter_congr
  intro p _
  by_cases h : p.1 = k <;> simp [List.contains_cons, h]

/-- Variant of `mapDelete_filter_contains` in the `simp`-normal form of
list membership. -/
theorem mapDelete_filter_mem (m : List (String × CacheItem)) (k : String)
    (ks : List String) :
    (mapDelete m k).filter (fun p => !decide (p.1 ∈ ks))
      = m.filter (fun p => !decide (p.1 = k) && !decide (p.1 ∈ ks)) := by
  unfold mapDelete
  rw [List.filter_filter]
  apply List.filter_congr
  intro p _
  by_cases h : p.1 = k <;> by_cases h2 : p.1 ∈ ks <;> simp [h, h2]

/-- `await this.delete(key)` over a key list, when no durable delete
fails, filters both tiers by those keys and leaves the statistics
alone. -/
theorem deleteAll_spec (ks : List String) :
    ∀ st : CacheState,
      (∀ k ∈ ks, durableDeleteFails st k = false) →
      deleteAll ks st =
        (Except.ok (),
          { memoryCache := st.memoryCache.filter (fun p => !(ks.contains p.1))
            idb := st.idb.map (fun idb =>
              { idb with store := idb.store.filter (fun p => !(ks.contains p.1)) })
            stats := st.stats }) := by
  induction ks with
  | nil =>
    intro st _
    simp only [deleteAll]
    congr 1
    cases st with
    | mk mem idb stats =>
      cases idb <;> simp [List.filter_eq_self]
  | cons k ks ih =>
    intro st hok
    have hk : durableDeleteFails st k = false := hok k (by simp)
    have hdel :
        deleteImpl k st =
          (Except.ok true,
            { memoryCache := mapDelete st.memoryCache k
              idb := st.idb.map (fun idb => { idb with store := mapDelete idb.store k })
              stats := st.stats }) := by
      unfold deleteImpl
      cases hidb : st.idb with
      | none => simp [hidb]
      | some idb =>
        have hcont : idb.delFail.contains k = false := by
          unfold durableDeleteFails at hk
          rw [hidb] at hk
          exact hk
        have hmem : ¬ k ∈ idb.delFail := by simpa using hcont
        simp [hidb, idbDelete, hcont, hmem]
    simp only [deleteAll, hdel]
    rw [ih _ (fun k' hk' => by
      have h2 := hok k' (List.mem_cons_of_mem k hk')
      unfold durableDeleteFails at h2 ⊢
      cases hidb : st.idb with
      | none => simp [hidb]
      | some idb => rw [hidb] at h2; simpa using h2)]
    cases hidb : st.idb with
    | none =>
      simp [hidb, mapDelete_filter_mem]
    | some idb =>
      simp [hidb, mapDelete_filter_mem]

theorem foldl_size_eq_sum (m : List (String × CacheItem)) :
    ∀ n : Nat, m.foldl (fun s p => s + p.2.size) n
      = n + (m.map (fun p => p.2.size)).sum := by
  induction m with
  | nil => intro n; simp
  | cons p rest ih =>
    intro n
    simp only [List.foldl_cons, List.map_cons, List.sum_cons, ih (n + p.2.size)]
    omega

/-- On a well-formed state, evicting the first `count` sorted entries
removes exactly `count` entries and bumps `evictions` by `count`. -/
theorem evictTake_count (st : CacheState) (count : Nat)
    (hwf : WellFormed st) (hle : count ≤ st.memoryCache.length) :
    (evictTake count st).memoryCache.length = st.memoryCache.length - count
    ∧ (evictTake count st).stats.evictions = st.stats.evictions + count := by
  have hperm : List.Perm (sortEntries st.memoryCache) st.memoryCache :=
    List.perm_insertionSort EvictOrder st.memoryCache
  have hlen : (sortEntries st.memoryCache).length = st.memoryCache.length :=
    hperm.length_eq
  have hvlen : ((sortEntries st.memoryCache).take count).length = count := by
    rw [List.length_take]; omega
  have hmemv : ∀ v ∈ (sortEntries st.memoryCache).take count, v ∈ st.memoryCache :=
    fun v hv => hperm.mem_iff.mp (List.mem_of_mem_take hv)
  have hkeymap : ((sortEntries st.memoryCache).take count).map (fun v => v.2.key)
      = ((sortEntries st.memoryCache).take count).map Prod.fst :=
    List.map_congr_left (fun v hv => hwf.2 v (hmemv v hv))
  have hnodup : (((sortEntries st.memoryCache).take count).map Prod.fst).Nodup := by
    have hsnd : ((sortEntries st.memoryCache).map Prod.fst).Nodup :=
      ((hperm.map Prod.fst).nodup_iff).mpr hwf.1
    exact hsnd.sublist ((List.take_sublist count _).map Prod.fst)
  have hkeys : ∀ v ∈ (sortEntries st.memoryCache).take count,
      v.2.key ∈ st.memoryCache.map Prod.fst := by
    intro v hv
    rw [hwf.2 v (hmemv v hv)]
    exact List.mem_map_of_mem Prod.fst (hmemv v hv)
  have hcount := length_foldl_mapDelete ((sortEntries st.memoryCache).take count)
    st.memoryCache hwf.1 (by rw [hkeymap]; exact hnodup) hkeys
  unfold evictTake
  constructor
  · simp only
    omega
  · simp only
    omega

/-! ## Claims -/

/-- Claim C2: the specification requires the fallback transform to be
reversible — `simpleDecompress(simpleCompress(s)) == s` for every
string `s`, including strings containing the transform's own
metacharacters (repeated characters and digit sequences).  The code
violates this: on the two-character input `"a2"`, `simpleCompress`
leaves the string unchanged and `simpleDecompress` expands it to
`"aa"`, so the round trip is not the identity. -/
theorem c2_roundtrip_fails :
    simpleDecompressStr (simpleCompressStr "a2") = "aa" ∧ "aa" ≠ "a2" :=
  ⟨by decide, by decide⟩

/-- Claim C9 (amended): for statistics with `h` hits and `m` misses,
`getStats` reports the binary64 evaluation of
`Math.round(((h / (h + m)) * 100) * 100) / 100` — `0` when
`h + m = 0` — together with the current memory item count and the
aggregate memory size.  Because every step rounds to 53 bits, this can
differ from `h / (h + m) * 100` rounded exactly to two decimal places:
at `h = 23, m = 137` the product chain evaluates to
`1437.4999999999998`, so the code reports `14.37` where exact rounding
gives `14.38`. -/
theorem c9_get_stats :
    ∀ st : CacheState,
      ((getStats st).hitRate =
        if st.stats.hits + st.stats.misses = 0 then 0
        else hitRateNumber st.stats.hits st.stats.misses)
      ∧ (getStats st).memoryItems = st.memoryCache.length
      ∧ (getStats st).memorySize = (st.memoryCache.map (fun p => p.2.size)).sum := by
  intro st
  refine ⟨?_, rfl, ?_⟩
  · simp only [getStats, hitRateNumber]
    by_cases h : st.stats.hits + st.stats.misses = 0
    · rw [if_pos h, h]
      rw [if_neg (by omega : ¬ (0 : Nat) > 0)]
      rw [(by decide : fpRound (fpMul100 (⟨0, 0⟩ : Fp64)) = 0)]
      rw [(by decide : flRat 0 100 = (⟨0, 0⟩ : Fp64))]
      simp [Fp64.toRat]
    · have hpos : 0 < st.stats.hits + st.stats.misses := Nat.pos_of_ne_zero h
      rw [if_neg h, if_pos hpos]
  · simp only [getStats, getMemoryCacheSize]
    simpa using foldl_size_eq_sum st.memoryCache 0

/-- Claim C9 counterexample: at 23 hits and 137 misses the binary64
chain computes `((23/160)·100)·100 = 1437.4999999999998`, so
`Math.round` yields 1437 and `getStats` reports the double nearest
`14.37` — not `round(23/160 · 100, 2) = 14.38` as the claim states. -/
theorem c9_counterexample :
    (getStats stat23137).hitRate = Fp64.toRat ⟨8089590830664253, -49⟩
    ∧ Fp64.toRat ⟨8089590830664253, -49⟩ = 8089590830664253 / 562949953421312
    ∧ roundTo2 ((23 : ℚ) / (23 + 137) * 100) = 719 / 50
    ∧ (getStats stat23137).hitRate ≠ roundTo2 ((23 : ℚ) / (23 + 137) * 100) := by
  have h1 : (getStats stat23137).hitRate = Fp64.toRat ⟨8089590830664253, -49⟩ :=
    congrArg Fp64.toRat (by decide)
  have h2 : Fp64.toRat (⟨8089590830664253, -49⟩ : Fp64)
      = 8089590830664253 / 562949953421312 := by
    norm_num [Fp64.toRat]
  have h3 : roundTo2 ((23 : ℚ) / (23 + 137) * 100) = 719 / 50 := by
    unfold roundTo2 jsRound
    rw [show (23 : ℚ) / (23 + 137) * 100 * 100 + 1 / 2 = ((1438 : Int) : ℚ) by
      norm_num]
    rw [Int.floor_intCast]
    norm_num
  refine ⟨h1, h2, h3, ?_⟩
  rw [h1, h2, h3]
  norm_num

/-- Claim C1 (amended): a pressure eviction run on a tier holding `N`
entries removes exactly `max(1, floor(0.25 * N))` entries — the code
uses `Math.floor`, not `ceil` — incrementing `evictions` once per
removed entry; inserting `maxMemoryItems + 1` distinct priority-1
entries triggers an eviction removing exactly
`max(1, floor(0.25 * 101)) = 25` entries (none were evicted at
`maxMemoryItems` insertions), leaving the 76 most recently inserted
entries in the memory tier and retrievable. -/
theorem c1_eviction_count :
    (∀ st : CacheState, WellFormed st → 0 < st.memoryCache.length →
        (evictItems st).memoryCache.length
            = st.memoryCache.length - max 1 (st.memoryCache.length / 4)
        ∧ (evictItems st).stats.evictions
            = st.stats.evictions + max 1 (st.memoryCache.length / 4))
    ∧ (fillState maxMemoryItems).stats.evictions = 0
    ∧ (fillState (maxMemoryItems + 1)).stats.evictions = 25
    ∧ (fillState (maxMemoryItems + 1)).memoryCache.length = 76
    ∧ (fillState (maxMemoryItems + 1)).memoryCache.map Prod.fst
        = (List.range' 25 76).map keyN
    ∧ (getImpl envPlain 1 (keyN 100) (fillState (maxMemoryItems + 1))).1
        = Except.ok (StoredValue.js (JsValue.number 100)) := by
  refine ⟨?_, by decide, by decide, by decide, by decide, by decide⟩
  intro st hwf hpos
  have h := evictTake_count st (max 1 (st.memoryCache.length / 4)) hwf (by omega)
  simpa [evictItems] using h

theorem c1_eviction_count_witness :
    WellFormed fiveState ∧ 0 < fiveState.memoryCache.length
    ∧ ((evictItems fiveState).memoryCache.length
          = fiveState.memoryCache.length - max 1 (fiveState.memoryCache.length / 4)
        ∧ (evictItems fiveState).stats.evictions
          = fiveState.stats.evictions + max 1 (fiveState.memoryCache.length / 4)) :=
  ⟨by decide, by decide, c1_eviction_count.1 fiveState (by decide) (by decide)⟩

/-- Claim C1 counterexample: on a five-entry tier the eviction routine
removes `max(1, floor(0.25 * 5)) = 1` entry (bumping `evictions` by 1),
not the `ceil(0.25 * 5) = 2` entries the claim requires. -/
theorem c1_counterexample :
    fiveState.memoryCache.length = 5
    ∧ fiveState.memoryCache.length - (evictItems fiveState).memoryCache.length = 1
    ∧ (evictItems fiveState).stats.evictions = 1
    ∧ Int.toNat ⌈(0.25 : ℚ) * (fiveState.memoryCache.length : ℚ)⌉ = 2 := by
  refine ⟨by decide, by decide, by decide, ?_⟩
  have hl : fiveState.memoryCache.length = 5 := by decide
  rw [hl]
  have h : ⌈(0.25 : ℚ) * ((5 : Nat) : ℚ)⌉ = 2 := by
    rw [Int.ceil_eq_iff]
    norm_num
  rw [h]
  rfl

/-- Claim C5: pressure eviction always removes entries in ascending
order of `(priority, lastAccessed || timestamp)` — the sorted list is a
permutation of the memory tier, pairwise ordered, every evicted entry
precedes every survivor in that order, and the evicted entries are
exactly the first `count` sorted entries; concretely, for `A` (priority
0, accessed at 20), `B` (priority 1, accessed at 10), `C` (priority 1,
accessed at 30), evicting one entry removes `A` and evicting two
removes `A` then `B`. -/
theorem c5_eviction_order :
    (∀ st : CacheState, (sortEntries st.memoryCache).Pairwise EvictOrder
        ∧ List.Perm (sortEntries st.memoryCache) st.memoryCache)
    ∧ (∀ st : CacheState, ∀ count : Nat,
        ∀ v ∈ (sortEntries st.memoryCache).take count,
        ∀ w ∈ (sortEntries st.memoryCache).drop count,
          v.2.priority < w.2.priority
          ∨ (v.2.priority = w.2.priority
              ∧ effectiveAccess v.2 ≤ effectiveAccess w.2))
    ∧ (∀ st : CacheState, ∀ count : Nat,
        (evictTake count st).memoryCache
          = st.memoryCache.filter
              (fun p => ((sortEntries st.memoryCache).take count).all
                  (fun v => decide ¬(p.1 = v.2.key))))
    ∧ (evictTake 1 abcState).memoryCache.map Prod.fst = ["B", "C"]
    ∧ (evictTake 2 abcState).memoryCache.map Prod.fst = ["C"]
    ∧ (sortEntries abcState.memoryCache).map Prod.fst = ["A", "B", "C"] := by
  refine ⟨?_, ?_, ?_, by decide, by decide, by decide⟩
  · intro st
    exact ⟨List.sorted_insertionSort EvictOrder st.memoryCache,
      List.perm_insertionSort EvictOrder st.memoryCache⟩
  · intro st count v hv w hw
    have hp : (sortEntries st.memoryCache).Pairwise EvictOrder :=
      List.sorted_insertionSort EvictOrder st.memoryCache
    rw [← List.take_append_drop count (sortEntries st.memoryCache)] at hp
    exact (List.pairwise_append.mp hp).2.2 v hv w hw
  · intro st count
    unfold evictTake
    exact foldl_mapDelete_eq_filter _ st.memoryCache

theorem c5_eviction_order_witness :
    ("A", itemPL "A" 0 20).2.priority < ("B", itemPL "B" 1 10).2.priority
    ∨ (("A", itemPL "A" 0 20).2.priority = ("B", itemPL "B" 1 10).2.priority
        ∧ effectiveAccess ("A", itemPL "A" 0 20).2
            ≤ effectiveAccess ("B", itemPL "B" 1 10).2) :=
  c5_eviction_order.2.1 abcState 1
    ("A", itemPL "A" 0 20) (by decide)
    ("B", itemPL "B" 1 10) (by decide)

/-- `get` on an in-memory entry that is expired: the hit is recorded on
the memory lookup, the entry is deleted from both tiers, a miss is
recorded, and `null` is returned. -/
theorem get_expired_eq (env : Env) (now : Int) (key : String) (st : CacheState)
    (item : CacheItem)
    (hmem : mapGet st.memoryCache key = some item)
    (hexp : isExpired item now = true)
    (hdel : durableDeleteFails st key = false) :
    getImpl env now key st
      = (Except.ok (StoredValue.js JsValue.null),
         { memoryCache := mapDelete st.memoryCache key
           idb := st.idb.map (fun idb => { idb with store := mapDelete idb.store key })
           stats := { st.stats with
                        hits := st.stats.hits + 1
                        misses := st.stats.misses + 1 } }) := by
  have h0 : getImpl env now key st = getFound env now key item (recordHit st) := by
    unfold getImpl
    rw [hmem]
  have hd : deleteImpl key (recordHit st)
      = (Except.ok true,
         { memoryCache := mapDelete st.memoryCache key
           idb := st.idb.map (fun idb => { idb with store := mapDelete idb.store key })
           stats := { st.stats with hits := st.stats.hits + 1 } }) := by
    unfold deleteImpl
    cases hidb : st.idb with
    | none => simp [recordHit, hidb]
    | some idb =>
      have hcont : idb.delFail.contains key = false := by
        unfold durableDeleteFails at hdel
        rw [hidb] at hdel
        exact hdel
      have hmem2 : ¬ key ∈ idb.delFail := by simpa using hcont
      simp [recordHit, hidb, idbDelete, hcont, hmem2]
  rw [h0]
  unfold getFound
  rw [if_pos hexp, hd]
  rfl

/-- Claim C6: an entry is expired iff its `ttl` is strictly positive and
`now - timestamp > ttl`; `get` on an expired in-memory entry returns
`null`, deletes the entry from the memory tier and (when present) the
durable tier, and records a miss — without waiting for the periodic
sweep. -/
theorem c6_lazy_expiry :
    (∀ item : CacheItem, ∀ now : Int,
        isExpired item now = true ↔ (0 < item.ttl ∧ item.ttl < now - item.timestamp))
    ∧ (∀ env now key st item,
        mapGet st.memoryCache key = some item →
        isExpired item now = true →
        durableDeleteFails st key = false →
        (getImpl env now key st).1 = Except.ok (StoredValue.js JsValue.null)
        ∧ mapGet (getImpl env now key st).2.memoryCache key = none
        ∧ (∀ idb2, (getImpl env now key st).2.idb = some idb2 →
            mapGet idb2.store key = none)
        ∧ (getImpl env now key st).2.stats.misses = st.stats.misses + 1) := by
  constructor
  · intro item now
    unfold isExpired
    simp only [Bool.and_eq_true, decide_eq_true_eq, gt_iff_lt]
  · intro env now key st item hmem hexp hdel
    rw [get_expired_eq env now key st item hmem hexp hdel]
    refine ⟨rfl, mapGet_mapDelete_self st.memoryCache key, ?_, rfl⟩
    intro idb2 h2
    cases hidb : st.idb with
    | none => rw [hidb] at h2; simp at h2
    | some idb =>
      rw [hidb] at h2
      simp at h2
      rw [← h2]
      exact mapGet_mapDelete_self idb.store key

theorem c6_lazy_expiry_witness :
    mapGet expiredState.memoryCache "k" = some expiredItem
    ∧ isExpired expiredItem 10 = true
    ∧ durableDeleteFails expiredState "k" = false
    ∧ (getImpl envPlain 10 "k" expiredState).1
        = Except.ok (StoredValue.js JsValue.null) :=
  ⟨by decide, by decide, by decide,
    (c6_lazy_expiry.2 envPlain 10 "k" expiredState expiredItem
      (by decide) (by decide) (by decide)).1⟩

/-- Claim C10: `get` on an in-memory entry that is expired at call time
increments the hits counter (recorded on the memory lookup, before the
expiry check) and the misses counter (recorded after it) by one each,
so a single lookup raises `hits + misses` by 2. -/
theorem c10_expired_double_count :
    ∀ env now key st item,
      mapGet st.memoryCache key = some item →
      isExpired item now = true →
      durableDeleteFails st key = false →
      (getImpl env now key st).2.stats.hits = st.stats.hits + 1
      ∧ (getImpl env now key st).2.stats.misses = st.stats.misses + 1 := by
  intro env now key st item hmem hexp hdel
  rw [get_expired_eq env now key st item hmem hexp hdel]
  exact ⟨rfl, rfl⟩

theorem c10_expired_double_count_witness :
    (getImpl envPlain 10 "k" expiredState).2.stats.hits
        = expiredState.stats.hits + 1
    ∧ (getImpl envPlain 10 "k" expiredState).2.stats.misses
        = expiredState.stats.misses + 1 :=
  c10_expired_double_count envPlain 10 "k" expiredState expiredItem
    (by decide) (by decide) (by decide)

/-- `checkEviction` does nothing while the item bound is respected. -/
theorem checkEviction_eq_of_le (st : CacheState)
    (h : st.memoryCache.length ≤ maxMemoryItems) : checkEviction st = st := by
  unfold checkEviction
  rw [if_neg (by omega)]

/-- Claim C3 (amended): `set` returns `true` and `get` completes
normally only while the durable tier cooperates: a failed durable put
propagates an error out of `set` (instead of a silent no-op), a failed
durable get propagates an error out of `get` (instead of a miss), and a
fallback-path decompression failure propagates an error out of `get`;
`set` does return `true` whenever the durable put is not the failing
one. -/
theorem c3_failure_semantics :
    (∀ env : Env, ∀ now : Int, ∀ key : String, ∀ v : JsValue,
        ∀ opts : SetOptions, ∀ st : CacheState,
        durablePutFails st key = false →
        (setImpl env now key v opts st).1 = Except.ok true)
    ∧ (∀ env : Env, ∀ now : Int, ∀ key : String, ∀ v : JsValue,
        ∀ opts : SetOptions, ∀ st : CacheState,
        durablePutFails st key = true →
        (setImpl env now key v opts st).1 = Except.error ())
    ∧ (∀ env : Env, ∀ now : Int, ∀ key : String, ∀ st : CacheState, ∀ idb : Idb,
        st.idb = some idb →
        mapGet st.memoryCache key = none →
        idb.getFail.contains key = true →
        getImpl env now key st = (Except.error (), st))
    ∧ (∀ env : Env, ∀ now : Int, ∀ key : String, ∀ st : CacheState,
        ∀ item : CacheItem, ∀ s : String,
        mapGet st.memoryCache key = some item →
        isExpired item now = false →
        item.compressed = true →
        item.value = StoredValue.js (JsValue.str s) →
        env.parse (simpleDecompressStr s) = none →
        (getImpl env now key st).1 = Except.error ()) := by
  refine ⟨?_, ?_, ?_, ?_⟩
  · intro env now key v opts st hput
    unfold setImpl
    cases hidb : st.idb with
    | none => simp [hidb]
    | some idb =>
      have hcont : idb.putFail.contains key = false := by
        unfold durablePutFails at hput
        rw [hidb] at hput
        exact hput
      have hmem2 : ¬ key ∈ idb.putFail := by simpa using hcont
      simp [hidb, idbPut, hcont, hmem2]
  · intro env now key v opts st hput
    unfold setImpl
    cases hidb : st.idb with
    | none =>
      unfold durablePutFails at hput
      rw [hidb] at hput
      simp at hput
    | some idb =>
      have hcont : idb.putFail.contains key = true := by
        unfold durablePutFails at hput
        rw [hidb] at hput
        exact hput
      have hmem2 : key ∈ idb.putFail := by simpa using hcont
      simp [hidb, idbPut, hcont, hmem2]
  · intro env now key st idb hidb hget hfail
    unfold getImpl
    rw [hget, hidb]
    have hmem2 : key ∈ idb.getFail := by simpa using hfail
    simp [idbGet, hfail, hmem2]
  · intro env now key st item s hmem hexp hcomp hval hparse
    have h0 : getImpl env now key st = getFound env now key item (recordHit st) := by
      unfold getImpl
      rw [hmem]
    rw [h0]
    unfold getFound
    rw [if_neg (by simp [hexp])]
    simp [hcomp, hval, decompressImpl, hparse]

theorem c3_failure_semantics_witness :
    durablePutFails noIdbState "k" = false
    ∧ (setImpl envPlain 0 "k" (JsValue.number 1) plainOpts noIdbState).1
        = Except.ok true :=
  ⟨by decide,
    c3_failure_semantics.1 envPlain 0 "k" (JsValue.number 1) plainOpts noIdbState
      (by decide)⟩

/-- Claim C3 counterexample: with a durable tier whose put (resp. get)
transaction on `"k"` fails, `set` rejects instead of returning `true`
and `get` rejects instead of reporting a miss. -/
theorem c3_counterexample :
    (setImpl envPlain 0 "k" (JsValue.number 1) plainOpts putFailState).1
        = Except.error ()
    ∧ (getImpl envPlain 0 "k" getFailState).1 = Except.error () :=
  ⟨by decide, by decide⟩

/-- Claim C4 (amended): the entry's `compressed` flag records the
*requested* `compress` option, not the actual stored form: when the
compression primitive throws and the raw value is stored by the `catch`
branch, the flag remains `true`, so `get` will attempt decompression on
the raw stored value (whose non-string shapes `decompress` returns
unchanged). -/
theorem c4_compressed_flag :
    ∀ env : Env, ∀ now : Int, ∀ key : String, ∀ v : JsValue,
      ∀ opts : SetOptions, ∀ st : CacheState,
      st.memoryCache.length < maxMemoryItems →
      ∃ item : CacheItem,
        mapGet (setImpl env now key v opts st).2.memoryCache key = some item
        ∧ item.compressed = opts.compress
        ∧ (opts.compress = true → env.hasCompressionStream = true →
            env.gzip (env.stringify v) = none → item.value = StoredValue.js v) := by
  intro env now key v opts st hlen
  have hboundmem : ∀ it : CacheItem,
      (mapSet st.memoryCache key it).length ≤ maxMemoryItems := by
    intro it
    have := length_mapSet_le st.memoryCache key it
    omega
  refine ⟨{ key := key
            value := (if opts.compress then compressImpl env v st.stats
                      else (StoredValue.js v, st.stats)).1
            timestamp := now, ttl := opts.ttl, priority := opts.priority
            tags := opts.tags, size := calculateSize env v, accessCount := 0
            lastAccessed := none, compressed := opts.compress }, ?_, rfl, ?_⟩
  · unfold setImpl
    cases hidb : st.idb with
    | none =>
      simp only [hidb]
      rw [checkEviction_eq_of_le _ (hboundmem _)]
      exact mapGet_mapSet_self _ _ _
    | some idb =>
      simp only [hidb]
      cases hput : idbPut idb
          { key := key
            value := (if opts.compress then compressImpl env v st.stats
                      else (StoredValue.js v, st.stats)).1
            timestamp := now, ttl := opts.ttl, priority := opts.priority
            tags := opts.tags, size := calculateSize env v, accessCount := 0
            lastAccessed := none, compressed := opts.compress } with
      | error e =>
        simp only [hput]
        exact mapGet_mapSet_self _ _ _
      | ok idb2 =>
        simp only [hput]
        rw [checkEviction_eq_of_le _ (hboundmem _)]
        exact mapGet_mapSet_self _ _ _
  · intro hc hcs hgz
    simp only [hc, if_pos rfl]
    unfold compressImpl
    rw [hcs]
    simp [hgz]

theorem c4_compressed_flag_witness :
    noIdbState.memoryCache.length < maxMemoryItems
    ∧ ∃ item : CacheItem,
        mapGet (setImpl envGzipFail 0 "k" (JsValue.number 7)
            { compress := true } noIdbState).2.memoryCache "k" = some item
        ∧ item.compressed = ({ compress := true } : SetOptions).compress
        ∧ (({ compress := true } : SetOptions).compress = true →
            envGzipFail.hasCompressionStream = true →
            envGzipFail.gzip (envGzipFail.stringify (JsValue.number 7)) = none →
            item.value = StoredValue.js (JsValue.number 7)) :=
  ⟨by decide,
    c4_compressed_flag envGzipFail 0 "k" (JsValue.number 7)
      { compress := true } noIdbState (by decide)⟩

/-- Claim C4 counterexample: under an environment whose
`CompressionStream` throws, `set` with `compress: true` stores the raw
value while the entry's `compressed` flag stays `true` — the flag does
not reflect the actual stored form, and decompression *is* attempted on
the raw data during `get`. -/
theorem c4_counterexample :
    (mapGet (setImpl envGzipFail 0 "k" (JsValue.number 7)
        { compress := true } noIdbState).2.memoryCache "k").map
      (fun item => (item.compressed, item.value))
      = some (true, StoredValue.js (JsValue.number 7)) := by
  decide

/-- Claim C7 (amended): `getOrCompute` returns the `get` result when it
is non-null; when `get` yields `null` it runs the producer, stores the
result via `set` and returns it; and when the producer fails, the error
propagates uncaught and nothing is written — the final state is exactly
the state `get` left behind (which may itself differ at the key,
because `get`'s lazy expiry deletes an already-expired entry, and a
legitimately cached `null` is indistinguishable from a miss). -/
theorem c7_get_or_compute :
    ∀ env : Env, ∀ now : Int, ∀ key : String, ∀ fn : Except Unit JsValue,
      ∀ opts : SetOptions, ∀ st : CacheState,
      (∀ v st1, getImpl env now key st = (Except.ok v, st1) →
          v ≠ StoredValue.js JsValue.null →
          getOrComputeImpl env now key fn opts st = (Except.ok v, st1))
      ∧ (∀ st1 r st2 b,
          getImpl env now key st
              = (Except.ok (StoredValue.js JsValue.null), st1) →
          fn = Except.ok r →
          setImpl env now key r opts st1 = (Except.ok b, st2) →
          getOrComputeImpl env now key fn opts st
              = (Except.ok (StoredValue.js r), st2))
      ∧ (∀ st1 e,
          getImpl env now key st
              = (Except.ok (StoredValue.js JsValue.null), st1) →
          fn = Except.error e →
          getOrComputeImpl env now key fn opts st = (Except.error e, st1)) := by
  intro env now key fn opts st
  refine ⟨?_, ?_, ?_⟩
  · intro v st1 hget hv
    have h0 : getOrComputeImpl env now key fn opts st
        = if v = StoredValue.js JsValue.null then
            computeAndSet env now key fn opts st1
          else (Except.ok v, st1) := by
      unfold getOrComputeImpl
      rw [hget]
    rw [h0, if_neg hv]
  · intro st1 r st2 b hget hfn hset
    have h0 : getOrComputeImpl env now key fn opts st
        = computeAndSet env now key fn opts st1 := by
      unfold getOrComputeImpl
      rw [hget]
      rfl
    have h1 : computeAndSet env now key fn opts st1
        = (Except.ok (StoredValue.js r), st2) := by
      subst hfn
      show (match setImpl env now key r opts st1 with
            | (Except.error _, st2) => (Except.error (), st2)
            | (Except.ok _, st2) => (Except.ok (StoredValue.js r), st2))
          = (Except.ok (StoredValue.js r), st2)
      rw [hset]
    rw [h0, h1]
  · intro st1 e hget hfn
    have h0 : getOrComputeImpl env now key fn opts st
        = computeAndSet env now key fn opts st1 := by
      unfold getOrComputeImpl
      rw [hget]
      rfl
    have h1 : computeAndSet env now key fn opts st1 = (Except.error e, st1) := by
      subst hfn
      rfl
    rw [h0, h1]

theorem c7_get_or_compute_witness :
    getOrComputeImpl envPlain 1 "k" (Except.ok (JsValue.number 99)) plainOpts
        presentState
      = (Except.ok (StoredValue.js (JsValue.number 3)),
         (getImpl envPlain 1 "k" presentState).2) := by
  have h1 : (getImpl envPlain 1 "k" presentState).1
      = Except.ok (StoredValue.js (JsValue.number 3)) := by decide
  have hget : getImpl envPlain 1 "k" presentState
      = (Except.ok (StoredValue.js (JsValue.number 3)),
         (getImpl envPlain 1 "k" presentState).2) := by
    rw [← h1]
  exact (c7_get_or_compute envPlain 1 "k" (Except.ok (JsValue.number 99))
      plainOpts presentState).1
    (StoredValue.js (JsValue.number 3))
    ((getImpl envPlain 1 "k" presentState).2) hget (by decide)

/-- Claim C7 counterexample: (i) with an expired entry under `"k"` and
a failing producer, the error propagates but the cache state for `"k"`
*does* change — the lazy expiry inside `get` deletes the entry; (ii)
with a legitimately cached `null` under `"k"`, the key is present yet
`getOrCompute` does not return the cached value: it recomputes. -/
theorem c7_counterexample :
    ((getOrComputeImpl envPlain 10 "k" (Except.error ()) plainOpts
          expiredState).1 = Except.error ()
      ∧ mapGet (getOrComputeImpl envPlain 10 "k" (Except.error ()) plainOpts
          expiredState).2.memoryCache "k" = none
      ∧ mapGet expiredState.memoryCache "k" ≠ none)
    ∧ ((getOrComputeImpl envPlain 1 "k" (Except.ok (JsValue.str "x")) plainOpts
          nullValueState).1 = Except.ok (StoredValue.js (JsValue.str "x"))
      ∧ (mapGet nullValueState.memoryCache "k").map (fun item => item.value)
          = some (StoredValue.js JsValue.null)) :=
  ⟨⟨by decide, by decide, by decide⟩, ⟨by decide, by decide⟩⟩

/-- Claim C8 (amended): `invalidateByTag(tag)` deletes from both tiers
exactly those in-memory entries whose tags include the tag (durable
entries are deleted by those same keys), leaves every other entry and
the statistics untouched — but it returns `undefined`, not the count of
removed entries (the count is only logged). -/
theorem c8_invalidate_by_tag :
    ∀ tag : String, ∀ st : CacheState,
      WellFormed st →
      (∀ k ∈ (st.memoryCache.filter (fun p => p.2.tags.contains tag)).map Prod.fst,
          durableDeleteFails st k = false) →
      (invalidateByTagImpl tag st).1 = Except.ok none
      ∧ (invalidateByTagImpl tag st).2.memoryCache
          = st.memoryCache.filter (fun p => !(p.2.tags.contains tag))
      ∧ (invalidateByTagImpl tag st).2.idb
          = st.idb.map (fun idb =>
              { idb with store := idb.store.filter (fun p =>
                  !(((st.memoryCache.filter
                        (fun q => q.2.tags.contains tag)).map Prod.fst).contains
                      p.1)) })
      ∧ (invalidateByTagImpl tag st).2.stats = st.stats := by
  intro tag st hwf hok
  have hda := deleteAll_spec
    ((st.memoryCache.filter (fun p => p.2.tags.contains tag)).map Prod.fst) st hok
  have h0 : invalidateByTagImpl tag st
      = (Except.ok none,
         { memoryCache := st.memoryCache.filter (fun p =>
             !(((st.memoryCache.filter
                   (fun q => q.2.tags.contains tag)).map Prod.fst).contains p.1))
           idb := st.idb.map (fun idb =>
             { idb with store := idb.store.filter (fun p =>
                 !(((st.memoryCache.filter
                       (fun q => q.2.tags.contains tag)).map Prod.fst).contains
                     p.1)) })
           stats := st.stats }) := by
    simp only [invalidateByTagImpl]
    rw [hda]
  rw [h0]
  refine ⟨rfl, ?_, rfl, rfl⟩
  apply List.filter_congr
  intro p hp
  have hcont : (((st.memoryCache.filter
        (fun q => q.2.tags.contains tag)).map Prod.fst).contains p.1)
      = (p.2.tags.contains tag) := by
    by_cases htag : p.2.tags.contains tag = true
    · have hpks : p.1 ∈ (st.memoryCache.filter
          (fun q => q.2.tags.contains tag)).map Prod.fst :=
        List.mem_map_of_mem Prod.fst (List.mem_filter.mpr ⟨hp, htag⟩)
      rw [htag]
      exact List.elem_eq_true_of_mem hpks
    · have hbnot : p.2.tags.contains tag = false := by
        simpa using htag
      have hpks : ¬ p.1 ∈ (st.memoryCache.filter
          (fun q => q.2.tags.contains tag)).map Prod.fst := by
        intro hmem
        rcases List.mem_map.mp hmem with ⟨q, hq, hq1⟩
        have hqmem := (List.mem_filter.mp hq).1
        have hqtag := (List.mem_filter.mp hq).2
        have hqp : q = p := List.inj_on_of_nodup_map hwf.1 hqmem hp hq1
        rw [hqp] at hqtag
        rw [hbnot] at hqtag
        exact absurd hqtag (by simp)
      rw [hbnot]
      exact Bool.eq_false_iff.mpr (fun hc => hpks (List.elem_iff.mp hc))
  rw [hcont]

theorem c8_invalidate_by_tag_witness :
    (invalidateByTagImpl "file" taggedState).1 = Except.ok none :=
  (c8_invalidate_by_tag "file" taggedState (by decide) (by decide)).1

/-- Claim C8 counterexample: on a cache with exactly one entry tagged
`"file"`, the call removes that entry (the `"other"`-tagged entry
survives) but evaluates to `undefined`, not to the removed count 1. -/
theorem c8_counterexample :
    (invalidateByTagImpl "file" taggedState).1 ≠ Except.ok (some 1)
    ∧ (taggedState.memoryCache.filter
        (fun p => p.2.tags.contains "file")).length = 1
    ∧ (invalidateByTagImpl "file" taggedState).2.memoryCache.map Prod.fst
        = ["g"] :=
  ⟨by decide, by decide, by decide⟩

/-! ## Sanity checks -/

example : flRat 1 2 = ⟨4503599627370496, -53⟩ := by decide
example : flRat 1 3 = ⟨6004799503160661, -54⟩ := by decide
example : flRat 1 10 = ⟨7205759403792794, -56⟩ := by decide
example : flRat 100 1 = ⟨7036874417766400, -46⟩ := by decide
example : flRat 23 160 = ⟨5179139571476070, -55⟩ := by decide
example : fpMul100 (flRat 23 160) = ⟨8092405580431359, -49⟩ := by decide
example : fpMul100 (fpMul100 (flRat 23 160)) = ⟨6322191859711999, -42⟩ := by decide
example : fpRound (fpMul100 (fpMul100 (flRat 23 160))) = 1437 := by decide
example : flRat 1437 100 = ⟨8089590830664253, -49⟩ := by decide
example : flRat 9007199254740993 1 = ⟨4503599627370496, 1⟩ := by decide


example : simpleCompressStr "aaab" = "a3b" := by decide
example : simpleDecompressStr "a3b" = "aaab" := by decide
example : simpleCompressStr "aaaaaaaaaaaa" = "a12" := by decide
example : simpleDecompressStr (simpleCompressStr "a2") = "aa" := by decide
example : simpleCompressStr "ab" = "ab" := by decide

example :
    (setImpl envPlain 5 "k" (JsValue.number 42) plainOpts noIdbState).1
      = Except.ok true := by decide

example :
    (getImpl envPlain 6 "k"
        (setImpl envPlain 5 "k" (JsValue.number 42) plainOpts noIdbState).2).1
      = Except.ok (StoredValue.js (JsValue.number 42)) := by decide

example :
    (getImpl envPlain 7 "missing" noIdbState).1
      = Except.ok (StoredValue.js JsValue.null) := by decide

example : (fillState 3).memoryCache.length = 3 := by decide


end CacheModel
